import Mathlib

/-!
Shallow embedding of the chunked aggregation pipeline of `src/eda.py`
(`load_support_data`, `load_sales_chunked`, and the derived metric
`avg_ticket`), together with theorems about the testable properties of its
specification.

Modelling conventions (pandas semantics made explicit):
* A CSV cell is a `Value`: `na` (NaN / missing), `num n` (a numeric cell,
  integers standing in for Python numbers: the arithmetic the claims concern
  is exact, and every identity proved here is a ring identity, so the
  idealization loses nothing the spec does not already concede as
  "floating-point tolerance"), or `str s` (a text cell).
* A `Row` is the list of cells of one CSV record, in header order; a
  dataset is a `header : List String` plus `rows : List Row`.
* `chunk.drop_duplicates()` removes rows that are exact duplicates of an
  earlier row of the same chunk (pandas keeps the first occurrence).
* `chunk.fillna(0)` turns every `na` cell into `num 0`.
* `pd.to_datetime(col, errors="coerce")` is modelled by `toDatetime`:
  a numeric cell `num q` converts to the timestamp `q` (pandas converts a
  number to an epoch offset, so `0` becomes the epoch 1970-01-01), a string
  cell is parsed by an ambient parser `dp : String → Option Int`
  (`none` = NaT), and `na` is NaT.  Timestamps are `Int`, ordered as pandas
  timestamps are.
* `dict(zip(ks, vs))` with a duplicated key keeps the last pair, hence
  `dictFind` searches the reversed association list.
* `Series.map(dict)` sends a key absent from the dict to NaN (`na`);
  `dict.get(k, default)` falls back to `default` instead.
* `groupby` is modelled by summing, for each distinct key (first-occurrence
  order; pandas sorts keys, which only changes an order no theorem depends
  on), the revenue cells of the rows carrying that key.  Revenue cells are
  assumed numeric-or-missing, as in the data this program reads.
* Streamlit progress/status calls are side effects with no bearing on the
  returned data and are omitted; `st.error` + `st.stop` on the empty
  dataset is modelled by `Except.error`.
-/

namespace EDA

/-- A CSV cell: missing, numeric, or text. -/
inductive Value where
  | na : Value
  | num : Int → Value
  | str : String → Value
deriving DecidableEq, Repr

/-- One CSV record, cells listed in header order. -/
abbrev Row := List Value

/-- A chunk: a list of rows, as produced by `pd.read_csv(..., chunksize=...)`. -/
abbrev Chunk := List Row

/-- Python `str()` of a cell value, as used by f-strings such as
`f"Product {pid}"` (integer-valued numbers print without a denominator). -/
def showValue : Value → String
  | .na => "nan"
  | .num n => toString n
  | .str s => s

/-- Index of a named column in the header (`None` when the column is absent),
modelling `"name" in chunk.columns` / column access by name. -/
def colIdx (header : List String) (name : String) : Option Nat :=
  header.findIdx? (· = name)

/-- The cell of `row` in column `i` (missing cells read as NaN). -/
def getCell (row : Row) (i : Nat) : Value :=
  row.getD i .na

/-- `fillna(0)` on one cell. -/
def fillCell : Value → Value
  | .na => .num 0
  | v => v

/-- `chunk.fillna(0, inplace=True)`. -/
def fillna (rows : List Row) : List Row :=
  rows.map (fun r => r.map fillCell)

/-- Keep-first deduplication with an accumulator of already-seen elements;
`dedupKeepFirst` below is `drop_duplicates` (pandas keeps the first of each
group of exact duplicates). -/
def dedupAux {α : Type} [DecidableEq α] (seen : List α) : List α → List α
  | [] => []
  | x :: xs => if x ∈ seen then dedupAux seen xs else x :: dedupAux (x :: seen) xs

/-- `chunk.drop_duplicates(inplace=True)` (also used to take the distinct
group keys of a `groupby`, in first-occurrence order). -/
def dedupKeepFirst {α : Type} [DecidableEq α] (l : List α) : List α :=
  dedupAux [] l

/-- `pd.to_datetime(cell, errors="coerce")` for one cell, given the ambient
string-date parser `dp` (`none` = NaT).  A numeric cell is an epoch offset:
`num 0` — in particular a filled-in missing value — parses to the epoch. -/
def toDatetime (dp : String → Option Int) : Value → Option Int
  | .na => none
  | .num n => some n
  | .str s => dp s

/-- `chunk["date"] = pd.to_datetime(chunk["date"], errors="coerce")`:
overwrite column `i` with the parse result (`na` for NaT). -/
def normDates (dp : String → Option Int) : Option Nat → List Row → List Row
  | none, rows => rows
  | some i, rows =>
    rows.map (fun r =>
      r.set i (match toDatetime dp (getCell r i) with
        | some t => .num t
        | none => .na))

/-- The per-chunk cleaning of `load_sales_chunked` (lines 86–90 of
`src/eda.py`): `drop_duplicates`, then `fillna(0)`, then date parsing when a
`date` column is present.  Note the order: a missing date is filled with `0`
before `to_datetime` runs. -/
def cleanChunk (dp : String → Option Int) (header : List String) (rows : Chunk) : Chunk :=
  normDates dp (colIdx header "date") (fillna (dedupKeepFirst rows))

/-- `chunk["date"].dropna().tolist()`: the parsed (non-NaT) dates of a
cleaned chunk, `[]` when the `date` column is absent. -/
def chunkDates : Option Nat → Chunk → List Int
  | none, _ => []
  | some i, rows =>
    rows.filterMap (fun r => match getCell r i with
      | .num t => some t
      | _ => none)

/-- Numeric reading of a cell, as `Series.sum` uses it (revenue cells are
numeric-or-missing; a missing cell contributes 0, exactly as pandas'
`skipna` summation — after `fillna` none remain anyway). -/
def numOf : Value → Int
  | .num n => n
  | _ => 0

/-- `chunk["revenue"].sum()` — 0 when the column is absent (the source guards
the accumulation with `if "revenue" in chunk.columns`, which adds nothing in
that case). -/
def colSum : Option Nat → Chunk → Int
  | none, _ => 0
  | some i, rows => (rows.map (fun r => numOf (getCell r i))).sum

/-- `chunk.groupby(key)["revenue"].sum().items()`: for each distinct key value
of column `ki`, the sum of the revenue cells (column `ri`) of the rows
carrying it. -/
def groupSum (ki ri : Nat) (rows : Chunk) : List (Value × Int) :=
  (dedupKeepFirst (rows.map (fun r => getCell r ki))).map
    (fun k => (k, ((rows.filter (fun r => getCell r ki = k)).map
      (fun r => numOf (getCell r ri))).sum))

/-- Lookup in a `dict(zip(keys, names))`: with a duplicated key the last pair
wins, hence the reversed search. -/
def dictFind (d : List (Value × Value)) (k : Value) : Option Value :=
  (d.reverse.find? (fun p => p.1 = k)).map (·.2)

/-- `products_dict.get(pid, f"Product {pid}")` (resp. `"Store "` for city):
the looked-up display name, or the synthesized fallback label. -/
def resolveName (d : List (Value × Value)) (pre : String) (k : Value) : Value :=
  match dictFind d k with
  | some v => v
  | none => .str (pre ++ showValue k)

/-- Python `m[name] = m.get(name, 0) + rev` on a dict with unique keys kept in
insertion order. -/
def addToMap : List (Value × Int) → Value → Int → List (Value × Int)
  | [], k, v => [(k, v)]
  | (k', v') :: m, k, v =>
    if k' = k then (k', v' + v) :: m else (k', v') :: addToMap m k v

/-- `m.get(k, 0)` on such a dict. -/
def mapGet : List (Value × Int) → Value → Int
  | [], _ => 0
  | (k', v') :: m, k => if k' = k then v' else mapGet m k

/-- Lines 99–102 (and symmetrically 105–108) of `src/eda.py`: when both the
key column and the revenue column exist, fold the chunk's per-key revenue
sums into the running revenue map, resolving keys to display names. -/
def accumGroups (d : List (Value × Value)) (pre : String) :
    Option Nat → Option Nat → List (Value × Int) → Chunk → List (Value × Int)
  | some ki, some ri, m, rows =>
    (groupSum ki ri rows).foldl (fun m kv => addToMap m (resolveName d pre kv.1) kv.2) m
  | _, _, m, _ => m

/-- Enrichment of one cell for the sample: `Series.map(dict)` — the mapped
display name when the key is in the dict, NaN when it is not (no fallback
label here, unlike `resolveName`). -/
def mapCell (d : List (Value × Value)) (k : Value) : Value :=
  match dictFind d k with
  | some v => v
  | none => .na

/-- Lines 112–116 of `src/eda.py` on one row: append a `product_name` cell
(when a `product_id` column exists) and then a `city` cell (when a `store_id`
column exists), each computed by `Series.map` over the lookup dict. -/
def enrichRow (pdict cdict : List (Value × Value)) (pi si : Option Nat) (r : Row) : Row :=
  (r ++ (match pi with
    | some i => [mapCell pdict (getCell r i)]
    | none => [])) ++
  (match si with
    | some i => [mapCell cdict (getCell r i)]
    | none => [])

/-- The pipeline's configuration: the ambient string-date parser and the two
lookup dicts built at lines 60–61 of `src/eda.py`, plus the sales header. -/
structure Env where
  dp : String → Option Int
  pdict : List (Value × Value)
  cdict : List (Value × Value)
  header : List String

/-- `chunk_merge` of lines 112–116: the cleaned chunk with display-name
columns appended. -/
def enrichChunk (env : Env) (rows : Chunk) : Chunk :=
  rows.map (enrichRow env.pdict env.cdict
    (colIdx env.header "product_id") (colIdx env.header "store_id"))

/-- The running accumulator `agg_data` of `load_sales_chunked`. -/
structure AggState where
  total_revenue : Int
  total_transactions : Nat
  product_revenue : List (Value × Int)
  city_revenue : List (Value × Int)
  dates : List Int
deriving DecidableEq

/-- `agg_data` as initialized at lines 68–76. -/
def initAgg : AggState :=
  ⟨0, 0, [], [], []⟩

/-- Lines 89–108 of `src/eda.py`: fold one already-cleaned chunk into the
running aggregates. -/
def stepAgg (env : Env) (st : AggState) (cl : Chunk) : AggState :=
  { total_revenue := st.total_revenue + colSum (colIdx env.header "revenue") cl
    total_transactions := st.total_transactions + cl.length
    product_revenue := accumGroups env.pdict "Product "
      (colIdx env.header "product_id") (colIdx env.header "revenue") st.product_revenue cl
    city_revenue := accumGroups env.cdict "Store "
      (colIdx env.header "store_id") (colIdx env.header "revenue") st.city_revenue cl
    dates := st.dates ++ chunkDates (colIdx env.header "date") cl }

/-- Lines 110–117: retain the enriched chunk iff fewer than 3 chunks have
been retained so far. -/
def stepSample (env : Env) (ss : List Chunk) (cl : Chunk) : List Chunk :=
  if ss.length < 3 then ss ++ [enrichChunk env cl] else ss

/-- The body of the `for chunk in pd.read_csv(...)` loop: clean the chunk,
then update the aggregates and the retained sample chunks. -/
def loopBody (env : Env) (acc : AggState × List Chunk) (chunk : Chunk) : AggState × List Chunk :=
  let cl := cleanChunk env.dp env.header chunk
  (stepAgg env acc.1 cl, stepSample env acc.2 cl)

/-- Fuelled chunking: `pd.read_csv("sales.csv", chunksize=c)` yields the
successive `c`-row slices of the dataset, and yields no chunk at all for a
dataset of zero rows.  The fuel (instantiated with the list's length) only
serves termination; it is never exhausted when `0 < c`. -/
def chunksGo (c : Nat) : Nat → List Row → List Chunk
  | _, [] => []
  | 0, _ :: _ => []
  | fuel + 1, r :: rs => ((r :: rs).take c) :: chunksGo c fuel ((r :: rs).drop c)

/-- The chunks of a dataset at chunk size `c`. -/
def chunksOf (c : Nat) (rows : List Row) : List Chunk :=
  chunksGo c rows.length rows

/-- Python `min(dates)` over a nonempty list (`none` for the empty list, in
which case line 127's guard leaves `min_date = None`). -/
def pyMin : List Int → Option Int
  | [] => none
  | x :: xs => some (xs.foldl min x)

/-- Python `max(dates)`, as `pyMin`. -/
def pyMax : List Int → Option Int
  | [] => none
  | x :: xs => some (xs.foldl max x)

/-- The finalized aggregate snapshot returned to the dashboard. -/
structure AggResult where
  total_revenue : Int
  total_transactions : Nat
  product_revenue : List (Value × Int)
  city_revenue : List (Value × Int)
  min_date : Option Int
  max_date : Option Int
deriving DecidableEq

/-- Lines 126–130: compute the date extremes (left `None` when no valid date
was ever seen). -/
def finalize (st : AggState) : AggResult :=
  ⟨st.total_revenue, st.total_transactions, st.product_revenue, st.city_revenue,
    pyMin st.dates, pyMax st.dates⟩

/-- What `load_sales_chunked` returns on success: the aggregates and the
capped sample (`products`/`cities` raw tables omitted — no claim concerns
them). -/
structure PipelineOutput where
  agg : AggResult
  sample : List Row
deriving DecidableEq

/-- `load_sales_chunked` of `src/eda.py` (lines 52–135): stream the dataset
in chunks, clean and aggregate each, retain the first 3 enriched chunks, fail
when no chunk was ever read (`st.error("❌ No data found in sales.csv")` +
`st.stop`, the spec's `EmptyDatasetError`), and otherwise cap the
concatenated sample at 50 000 rows. -/
def load_sales_chunked (env : Env) (chunksize : Nat) (rows : List Row) :
    Except String PipelineOutput :=
  let res := (chunksOf chunksize rows).foldl (loopBody env) (initAgg, [])
  if res.2.isEmpty then
    .error "No data found in sales.csv"
  else
    .ok ⟨finalize res.1, res.2.flatten.take 50000⟩

/-- Lines 60–61 of `src/eda.py` (with `load_support_data` supplying the
table): `dict(zip(df[keyCol], df.get(nameCol, df.columns[1])))`.  When
`nameCol` is absent, `df.get` returns the *name* of the second column — a
string — and `zip` then pairs the ids with that string's characters.
`none` when the key column is absent (a `KeyError` in Python). -/
def buildDict (header : List String) (rows : List Row) (keyCol nameCol : String) :
    Option (List (Value × Value)) :=
  match colIdx header keyCol with
  | none => none
  | some ki =>
    let keys := rows.map (fun r => getCell r ki)
    match colIdx header nameCol with
    | some ni => some (keys.zip (rows.map (fun r => getCell r ni)))
    | none =>
      some (keys.zip (((header.getD 1 "").toList).map (fun ch => Value.str (String.singleton ch))))

/-- Line 148 of `src/eda.py`:
`avg_ticket = total_revenue / total_sales_count if total_sales_count > 0 else 0`. -/
def avg_ticket (total_revenue : Int) (total_sales_count : Nat) : Rat :=
  if total_sales_count > 0 then (total_revenue : Rat) / (total_sales_count : Rat) else 0

/-- A single-pass scan of the whole dataset under the same cleaning rules
(the reference point of the spec's chunk-size-independence invariant): the
dataset processed as one single chunk. -/
def singlePassCount (env : Env) (rows : List Row) : Nat :=
  (cleanChunk env.dp env.header rows).length

/-- Single-pass total revenue, as `singlePassCount`. -/
def singlePassRevenue (env : Env) (rows : List Row) : Int :=
  colSum (colIdx env.header "revenue") (cleanChunk env.dp env.header rows)

/-! ## Helper lemmas: keep-first deduplication -/

theorem mem_dedupAux {α : Type} [DecidableEq α] (a : α) :
    ∀ (l seen : List α), a ∈ dedupAux seen l ↔ a ∈ l ∧ a ∉ seen := by
  intro l
  induction l with
  | nil => intro seen; simp [dedupAux]
  | cons x xs ih =>
    intro seen
    by_cases hx : x ∈ seen
    · rw [dedupAux, if_pos hx, ih]
      constructor
      · rintro ⟨h1, h2⟩; exact ⟨List.mem_cons_of_mem _ h1, h2⟩
      · rintro ⟨h1, h2⟩
        rcases List.mem_cons.mp h1 with rfl | h1
        · exact absurd hx h2
        · exact ⟨h1, h2⟩
    · rw [dedupAux, if_neg hx]
      simp only [List.mem_cons, ih (x :: seen)]
      constructor
      · rintro (rfl | ⟨h1, h2⟩)
        · exact ⟨Or.inl rfl, hx⟩
        · exact ⟨Or.inr h1, fun hs => h2 (Or.inr hs)⟩
      · rintro ⟨h1 | h1, h2⟩
        · exact Or.inl h1
        · by_cases hax : a = x
          · exact Or.inl hax
          · exact Or.inr ⟨h1, by simp [List.mem_cons, hax, h2]⟩

theorem nodup_dedupAux {α : Type} [DecidableEq α] :
    ∀ (l seen : List α), (dedupAux seen l).Nodup := by
  intro l
  induction l with
  | nil => intro seen; simp [dedupAux]
  | cons x xs ih =>
    intro seen
    by_cases hx : x ∈ seen
    · rw [dedupAux, if_pos hx]; exact ih seen
    · rw [dedupAux, if_neg hx]
      refine List.nodup_cons.mpr ⟨?_, ih (x :: seen)⟩
      intro hmem
      exact ((mem_dedupAux x xs (x :: seen)).mp hmem).2 (List.mem_cons_self x seen)

theorem dedupAux_eq_self {α : Type} [DecidableEq α] :
    ∀ (l seen : List α), l.Nodup → (∀ a ∈ l, a ∉ seen) → dedupAux seen l = l := by
  intro l
  induction l with
  | nil => intro seen _ _; rfl
  | cons x xs ih =>
    intro seen hnd hdisj
    rw [dedupAux, if_neg (hdisj x (List.mem_cons_self x xs))]
    congr 1
    refine ih (x :: seen) (List.Nodup.of_cons hnd) ?_
    intro a ha
    simp only [List.mem_cons, not_or]
    exact ⟨fun hax => (List.nodup_cons.mp hnd).1 (hax ▸ ha), hdisj a (List.mem_cons_of_mem _ ha)⟩

theorem mem_dedupKeepFirst {α : Type} [DecidableEq α] (a : α) (l : List α) :
    a ∈ dedupKeepFirst l ↔ a ∈ l := by
  rw [dedupKeepFirst, mem_dedupAux]
  simp

theorem nodup_dedupKeepFirst {α : Type} [DecidableEq α] (l : List α) :
    (dedupKeepFirst l).Nodup :=
  nodup_dedupAux l []

theorem dedupKeepFirst_eq_self {α : Type} [DecidableEq α] {l : List α} (h : l.Nodup) :
    dedupKeepFirst l = l :=
  dedupAux_eq_self l [] h (by simp)

/-! ## Helper lemmas: chunking -/

theorem chunksGo_flatten {c : Nat} (hc : 0 < c) :
    ∀ (fuel : Nat) (rows : List Row), rows.length ≤ fuel →
      (chunksGo c fuel rows).flatten = rows := by
  intro fuel
  induction fuel with
  | zero =>
    intro rows hlen
    cases rows with
    | nil => rfl
    | cons r rs => simp at hlen
  | succ fuel ih =>
    intro rows hlen
    cases rows with
    | nil => rfl
    | cons r rs =>
      rw [chunksGo, List.flatten_cons, ih _ ?_, List.take_append_drop]
      have : ((r :: rs).drop c).length = (r :: rs).length - c := List.length_drop c (r :: rs)
      rw [this]
      omega

theorem chunksOf_flatten {c : Nat} (hc : 0 < c) (rows : List Row) :
    (chunksOf c rows).flatten = rows :=
  chunksGo_flatten hc rows.length rows (Nat.le_refl _)

theorem chunksGo_sublist {c : Nat} :
    ∀ (fuel : Nat) (rows : List Row) (ch : Chunk), ch ∈ chunksGo c fuel rows →
      ch.Sublist rows := by
  intro fuel
  induction fuel with
  | zero =>
    intro rows ch hmem
    cases rows with
    | nil => simp [chunksGo] at hmem
    | cons r rs => simp [chunksGo] at hmem
  | succ fuel ih =>
    intro rows ch hmem
    cases rows with
    | nil => simp [chunksGo] at hmem
    | cons r rs =>
      rw [chunksGo, List.mem_cons] at hmem
      rcases hmem with rfl | hmem
      · exact List.take_sublist c (r :: rs)
      · exact (ih _ ch hmem).trans (List.drop_sublist c (r :: rs))

theorem mem_chunksOf_sublist {c : Nat} {rows : List Row} {ch : Chunk}
    (h : ch ∈ chunksOf c rows) : ch.Sublist rows :=
  chunksGo_sublist rows.length rows ch h

theorem chunksOf_ne_nil {c : Nat} {rows : List Row} (h : rows ≠ []) :
    chunksOf c rows ≠ [] := by
  cases rows with
  | nil => exact absurd rfl h
  | cons r rs => rw [chunksOf, List.length_cons, chunksGo]; simp

/-! ## Helper lemmas: the loop fold -/

/-- The aggregate component of the loop, as a fold on `AggState` alone. -/
def stepClean (env : Env) (st : AggState) (ch : Chunk) : AggState :=
  stepAgg env st (cleanChunk env.dp env.header ch)

theorem foldl_loopBody_fst (env : Env) :
    ∀ (chunks : List Chunk) (st : AggState) (ss : List Chunk),
      (chunks.foldl (loopBody env) (st, ss)).1 = chunks.foldl (stepClean env) st := by
  intro chunks
  induction chunks with
  | nil => intro st ss; rfl
  | cons ch rest ih =>
    intro st ss
    rw [List.foldl_cons, List.foldl_cons]
    exact ih _ _

theorem foldl_loopBody_snd (env : Env) :
    ∀ (chunks : List Chunk) (st : AggState) (ss : List Chunk), ss.length ≤ 3 →
      (chunks.foldl (loopBody env) (st, ss)).2 =
        ss ++ (chunks.take (3 - ss.length)).map
          (fun ch => enrichChunk env (cleanChunk env.dp env.header ch)) := by
  intro chunks
  induction chunks with
  | nil => intro st ss _; simp
  | cons ch rest ih =>
    intro st ss hlen
    rw [List.foldl_cons]
    by_cases hlt : ss.length < 3
    · have hbody : loopBody env (st, ss) ch =
          (stepAgg env st (cleanChunk env.dp env.header ch),
            ss ++ [enrichChunk env (cleanChunk env.dp env.header ch)]) := by
        simp [loopBody, stepSample, hlt]
      rw [hbody, ih _ _ (by simp; omega)]
      have h3 : 3 - ss.length = (3 - (ss.length + 1)) + 1 := by omega
      rw [h3, List.take_succ_cons, List.map_cons]
      simp
    · have h3 : ss.length = 3 := by omega
      have hbody : loopBody env (st, ss) ch =
          (stepAgg env st (cleanChunk env.dp env.header ch), ss) := by
        simp [loopBody, stepSample, hlt]
      rw [hbody, ih _ _ hlen, h3]
      simp

theorem foldl_stepClean_tt (env : Env) :
    ∀ (chunks : List Chunk) (st : AggState),
      (chunks.foldl (stepClean env) st).total_transactions =
        st.total_transactions +
          (chunks.map (fun ch => (cleanChunk env.dp env.header ch).length)).sum := by
  intro chunks
  induction chunks with
  | nil => intro st; simp
  | cons ch rest ih =>
    intro st
    rw [List.foldl_cons, ih, List.map_cons, List.sum_cons]
    simp [stepClean, stepAgg]
    omega

theorem foldl_stepClean_tr (env : Env) :
    ∀ (chunks : List Chunk) (st : AggState),
      (chunks.foldl (stepClean env) st).total_revenue =
        st.total_revenue +
          (chunks.map (fun ch =>
            colSum (colIdx env.header "revenue") (cleanChunk env.dp env.header ch))).sum := by
  intro chunks
  induction chunks with
  | nil => intro st; simp
  | cons ch rest ih =>
    intro st
    rw [List.foldl_cons, ih, List.map_cons, List.sum_cons]
    simp [stepClean, stepAgg]
    ring

theorem foldl_stepClean_dates (env : Env) :
    ∀ (chunks : List Chunk) (st : AggState),
      (chunks.foldl (stepClean env) st).dates =
        st.dates ++ (chunks.map (fun ch =>
          chunkDates (colIdx env.header "date") (cleanChunk env.dp env.header ch))).flatten := by
  intro chunks
  induction chunks with
  | nil => intro st; simp
  | cons ch rest ih =>
    intro st
    rw [List.foldl_cons, ih, List.map_cons, List.flatten_cons]
    simp [stepClean, stepAgg]

/-! ## Helper lemmas: revenue maps -/

/-- The sum of the values of a revenue map (Python `sum(m.values())`). -/
def sumValues (m : List (Value × Int)) : Int :=
  (m.map Prod.snd).sum

theorem sumValues_addToMap (k : Value) (v : Int) :
    ∀ (m : List (Value × Int)), sumValues (addToMap m k v) = sumValues m + v := by
  intro m
  induction m with
  | nil => simp [addToMap, sumValues]
  | cons p m ih =>
    obtain ⟨k1, v1⟩ := p
    by_cases hk : k1 = k
    · simp [addToMap, hk, sumValues]
      ring
    · simp [addToMap, hk, sumValues] at ih ⊢
      rw [ih]
      ring

theorem mapGet_addToMap (k k2 : Value) (v : Int) :
    ∀ (m : List (Value × Int)),
      mapGet (addToMap m k v) k2 = mapGet m k2 + if k2 = k then v else 0 := by
  intro m
  induction m with
  | nil =>
    simp only [addToMap, mapGet]
    by_cases h : k2 = k
    · subst h; simp
    · rw [if_neg (fun hh => h hh.symm), if_neg h]; simp
  | cons p m ih =>
    obtain ⟨k1, v1⟩ := p
    by_cases hk : k1 = k
    · subst hk
      rw [addToMap, if_pos rfl]
      by_cases h2 : k1 = k2
      · subst h2
        simp only [mapGet, if_pos rfl]
        simp
      · simp only [mapGet, if_neg h2]
        rw [if_neg (fun hh => h2 hh.symm)]
        simp
    · rw [addToMap, if_neg hk]
      by_cases h2 : k1 = k2
      · subst h2
        simp only [mapGet, if_pos rfl]
        rw [if_neg hk]
        simp
      · simp only [mapGet, if_neg h2]
        exact ih

theorem sumValues_foldl_addToMap (nm : Value → Value) :
    ∀ (l : List (Value × Int)) (m : List (Value × Int)),
      sumValues (l.foldl (fun m kv => addToMap m (nm kv.1) kv.2) m) =
        sumValues m + (l.map Prod.snd).sum := by
  intro l
  induction l with
  | nil => intro m; simp
  | cons kv rest ih =>
    intro m
    rw [List.foldl_cons, ih, sumValues_addToMap]
    simp
    ring

theorem mapGet_foldl_addToMap (nm : Value → Value) (target : Value) :
    ∀ (l : List (Value × Int)) (m : List (Value × Int)),
      mapGet (l.foldl (fun m kv => addToMap m (nm kv.1) kv.2) m) target =
        mapGet m target + ((l.filter (fun kv => nm kv.1 = target)).map Prod.snd).sum := by
  intro l
  induction l with
  | nil => intro m; simp
  | cons kv rest ih =>
    intro m
    rw [List.foldl_cons, ih, mapGet_addToMap]
    by_cases h : nm kv.1 = target
    · have h2 : target = nm kv.1 := h.symm
      rw [List.filter_cons_of_pos (by simp [h]), List.map_cons, List.sum_cons, if_pos h2]
      ring
    · have h2 : ¬target = nm kv.1 := fun hh => h hh.symm
      rw [List.filter_cons_of_neg (by simp [h]), if_neg h2]
      ring

/-! ## Helper lemmas: fiber sums (`groupby` partitions a chunk) -/

theorem sum_map_ite_eq_zero (key : Value) (v : Int) :
    ∀ (ks : List Value), key ∉ ks →
      (ks.map (fun k => if key = k then v else 0)).sum = 0 := by
  intro ks
  induction ks with
  | nil => intro _; simp
  | cons k rest ih =>
    intro hmem
    rw [List.map_cons, List.sum_cons, if_neg (by simp at hmem; exact hmem.1),
      ih (by simp at hmem; exact hmem.2)]
    simp

theorem sum_map_ite_eq (key : Value) (v : Int) :
    ∀ (ks : List Value), ks.Nodup → key ∈ ks →
      (ks.map (fun k => if key = k then v else 0)).sum = v := by
  intro ks
  induction ks with
  | nil => intro _ h; simp at h
  | cons k rest ih =>
    intro hnd hmem
    rcases List.mem_cons.mp hmem with rfl | hmem2
    · rw [List.map_cons, List.sum_cons, if_pos rfl,
        sum_map_ite_eq_zero key v rest (List.nodup_cons.mp hnd).1]
      simp
    · rw [List.map_cons, List.sum_cons,
        if_neg (fun hh => (List.nodup_cons.mp hnd).1 (by rw [← hh]; exact hmem2)),
        ih (List.nodup_cons.mp hnd).2 hmem2]
      simp

theorem sum_map_add_distrib (g h : Value → Int) :
    ∀ (ks : List Value), (ks.map (fun k => g k + h k)).sum = (ks.map g).sum + (ks.map h).sum := by
  intro ks
  induction ks with
  | nil => simp
  | cons k0 krest ihk =>
    simp only [List.map_cons, List.sum_cons]
    rw [ihk]
    ring

theorem sum_fiber_partition (key : Row → Value) (f : Row → Int) (ks : List Value)
    (hnd : ks.Nodup) :
    ∀ (rows : List Row), (∀ r ∈ rows, key r ∈ ks) →
      (ks.map (fun k => ((rows.filter (fun r => key r = k)).map f).sum)).sum =
        (rows.map f).sum := by
  intro rows
  induction rows with
  | nil =>
    intro _
    simp
  | cons r rest ih =>
    intro hcov
    have hsplit : ∀ k : Value,
        (((r :: rest).filter (fun r2 => key r2 = k)).map f).sum =
          (if key r = k then f r else 0) +
            ((rest.filter (fun r2 => key r2 = k)).map f).sum := by
      intro k
      by_cases h : key r = k
      · rw [List.filter_cons_of_pos (by simp [h]), List.map_cons, List.sum_cons, if_pos h]
      · rw [List.filter_cons_of_neg (by simp [h]), if_neg h]
        simp
    have hmaps : (ks.map (fun k => (((r :: rest).filter (fun r2 => key r2 = k)).map f).sum)) =
        ks.map (fun k => (if key r = k then f r else 0) +
          ((rest.filter (fun r2 => key r2 = k)).map f).sum) :=
      List.map_congr_left (fun k _ => hsplit k)
    rw [hmaps,
      sum_map_add_distrib (fun k => if key r = k then f r else 0)
        (fun k => ((rest.filter (fun r2 => key r2 = k)).map f).sum) ks,
      sum_map_ite_eq (key r) (f r) ks hnd (hcov r (List.mem_cons_self r rest)),
      ih (fun r2 h2 => hcov r2 (List.mem_cons_of_mem _ h2)), List.map_cons, List.sum_cons]

theorem groupSum_snd_sum (ki ri : Nat) (rows : Chunk) :
    ((groupSum ki ri rows).map Prod.snd).sum =
      (rows.map (fun r => numOf (getCell r ri))).sum := by
  rw [groupSum, List.map_map]
  exact sum_fiber_partition (fun r => getCell r ki) (fun r => numOf (getCell r ri))
    (dedupKeepFirst (rows.map (fun r => getCell r ki)))
    (nodup_dedupKeepFirst _) rows
    (fun r hr => (mem_dedupKeepFirst _ _).mpr (List.mem_map_of_mem _ hr))

/-! ## Helper lemmas: per-chunk revenue-map accumulation -/

theorem sumValues_accumGroups (d : List (Value × Value)) (pre : String) (ki ri : Nat)
    (m : List (Value × Int)) (rows : Chunk) :
    sumValues (accumGroups d pre (some ki) (some ri) m rows) =
      sumValues m + colSum (some ri) rows := by
  rw [accumGroups, sumValues_foldl_addToMap (resolveName d pre), groupSum_snd_sum]
  rfl

theorem filter_fst_map_pair (fib : Value → Int) (pid : Value) :
    ∀ (ks : List Value),
      (((ks.map (fun k => (k, fib k))).filter (fun kv => kv.1 = pid)).map Prod.snd) =
        (ks.filter (fun k => k = pid)).map fib := by
  intro ks
  induction ks with
  | nil => simp
  | cons k rest ih =>
    by_cases h : k = pid
    · subst h
      simp [List.filter_cons, ih]
    · simp [List.filter_cons, h, ih]

theorem groupSum_filter_key (ki ri : Nat) (rows : Chunk) (pid : Value) :
    (((groupSum ki ri rows).filter (fun kv => kv.1 = pid)).map Prod.snd).sum =
      ((rows.filter (fun r => getCell r ki = pid)).map (fun r => numOf (getCell r ri))).sum := by
  rw [groupSum, filter_fst_map_pair]
  by_cases hmem : pid ∈ dedupKeepFirst (rows.map (fun r => getCell r ki))
  · rw [List.filter_eq, List.count_eq_one_of_mem (nodup_dedupKeepFirst _) hmem]
    simp
  · rw [List.filter_eq, List.count_eq_zero.mpr hmem]
    have hnone : rows.filter (fun r => getCell r ki = pid) = [] := by
      rw [List.filter_eq_nil_iff]
      intro r hr
      simp only [decide_eq_true_eq]
      intro heq
      exact hmem ((mem_dedupKeepFirst _ _).mpr (heq ▸ List.mem_map_of_mem _ hr))
    rw [hnone]
    simp

theorem mem_groupSum_fst {ki ri : Nat} {rows : Chunk} {kv : Value × Int}
    (h : kv ∈ groupSum ki ri rows) : ∃ r ∈ rows, getCell r ki = kv.1 := by
  rw [groupSum] at h
  obtain ⟨k, hk, hkv⟩ := List.mem_map.mp h
  obtain ⟨r, hr, hrk⟩ := List.mem_map.mp ((mem_dedupKeepFirst _ _).mp hk)
  exact ⟨r, hr, by rw [hrk, ← hkv]⟩

theorem mapGet_accumGroups (d : List (Value × Value)) (pre : String) (ki ri : Nat)
    (m : List (Value × Int)) (rows : Chunk) (target pid : Value)
    (huniq : ∀ r ∈ rows,
      (resolveName d pre (getCell r ki) = target ↔ getCell r ki = pid)) :
    mapGet (accumGroups d pre (some ki) (some ri) m rows) target =
      mapGet m target +
        ((rows.filter (fun r => getCell r ki = pid)).map (fun r => numOf (getCell r ri))).sum := by
  rw [accumGroups, mapGet_foldl_addToMap (resolveName d pre) target]
  congr 1
  have hcongr : ∀ kv ∈ groupSum ki ri rows,
      decide (resolveName d pre kv.1 = target) = decide (kv.1 = pid) := by
    intro kv hkv
    obtain ⟨r, hr, hrk⟩ := mem_groupSum_fst hkv
    exact decide_eq_decide.mpr (hrk ▸ huniq r hr)
  rw [List.filter_congr hcongr, groupSum_filter_key]

/-! ## Helper lemmas: cleaning as a per-row map -/

/-- The row-wise part of the cleaning (`fillna(0)` then, when the dataset has
a `date` column, overwriting the date cell with its parse result). -/
def cleanRow (dp : String → Option Int) (hdr : List String) (r : Row) : Row :=
  match colIdx hdr "date" with
  | none => r.map fillCell
  | some i =>
    (r.map fillCell).set i
      (match toDatetime dp (getCell (r.map fillCell) i) with
        | some t => .num t
        | none => .na)

theorem cleanChunk_eq_map (dp : String → Option Int) (hdr : List String) (rows : Chunk) :
    cleanChunk dp hdr rows = (dedupKeepFirst rows).map (cleanRow dp hdr) := by
  rw [cleanChunk, fillna]
  cases hcol : colIdx hdr "date" with
  | none =>
    rw [normDates]
    exact List.map_congr_left (fun r _ => by simp only [cleanRow, hcol])
  | some i =>
    rw [normDates, List.map_map]
    exact List.map_congr_left (fun r _ => by simp only [cleanRow, hcol, Function.comp])

theorem cleanChunk_eq_map_of_nodup (dp : String → Option Int) (hdr : List String)
    {rows : Chunk} (h : rows.Nodup) :
    cleanChunk dp hdr rows = rows.map (cleanRow dp hdr) := by
  rw [cleanChunk_eq_map, dedupKeepFirst_eq_self h]

theorem length_cleanChunk (dp : String → Option Int) (hdr : List String) (rows : Chunk) :
    (cleanChunk dp hdr rows).length = (dedupKeepFirst rows).length := by
  rw [cleanChunk_eq_map, List.length_map]

theorem length_fillna_dedup (rows : Chunk) :
    (fillna (dedupKeepFirst rows)).length = (dedupKeepFirst rows).length :=
  List.length_map _ _

theorem colSum_append (o : Option Nat) (a b : Chunk) :
    colSum o (a ++ b) = colSum o a + colSum o b := by
  cases o with
  | none => simp [colSum]
  | some i => simp [colSum]

theorem colSum_flatten_map (o : Option Nat) (f : Row → Row) :
    ∀ (chunks : List Chunk),
      (chunks.map (fun ch => colSum o (ch.map f))).sum = colSum o (chunks.flatten.map f) := by
  intro chunks
  induction chunks with
  | nil => cases o <;> simp [colSum]
  | cons ch rest ih =>
    rw [List.map_cons, List.sum_cons, List.flatten_cons, List.map_append, colSum_append, ih]

/-! ## Helper lemmas: the pipeline unfolded -/

theorem load_ok_inv {env : Env} {c : Nat} {rows : List Row} {r : PipelineOutput}
    (h : load_sales_chunked env c rows = .ok r) :
    r.agg = finalize ((chunksOf c rows).foldl (stepClean env) initAgg) ∧
    r.sample = ((((chunksOf c rows).take 3).map
      (fun ch => enrichChunk env (cleanChunk env.dp env.header ch))).flatten).take 50000 := by
  simp only [load_sales_chunked] at h
  split at h
  · exact absurd h (by simp)
  · have h2 := Except.ok.inj h
    rw [← h2, foldl_loopBody_fst env _ initAgg [],
      foldl_loopBody_snd env _ initAgg [] (by simp)]
    simp

theorem load_ok_of_chunks_ne {env : Env} {c : Nat} {rows : List Row}
    (h : chunksOf c rows ≠ []) :
    ∃ r, load_sales_chunked env c rows = .ok r := by
  simp only [load_sales_chunked]
  have h2 : ((chunksOf c rows).foldl (loopBody env) (initAgg, [])).2 ≠ [] := by
    rw [foldl_loopBody_snd env _ initAgg [] (by simp)]
    simp [List.take_eq_nil_iff, h]
  rw [if_neg (by simpa [List.isEmpty_iff] using h2)]
  exact ⟨_, rfl⟩

theorem foldl_stepClean_pr_sum (env : Env) (ki ri : Nat)
    (hpi : colIdx env.header "product_id" = some ki)
    (hri : colIdx env.header "revenue" = some ri) :
    ∀ (chunks : List Chunk) (st : AggState),
      sumValues (chunks.foldl (stepClean env) st).product_revenue =
        sumValues st.product_revenue +
          (chunks.map (fun ch =>
            colSum (some ri) (cleanChunk env.dp env.header ch))).sum := by
  intro chunks
  induction chunks with
  | nil => intro st; simp
  | cons ch rest ih =>
    intro st
    rw [List.foldl_cons, ih, List.map_cons, List.sum_cons]
    simp only [stepClean, stepAgg, hpi, hri, sumValues_accumGroups]
    ring

theorem foldl_stepClean_pr_get (env : Env) (ki ri : Nat) (target pid : Value)
    (hpi : colIdx env.header "product_id" = some ki)
    (hri : colIdx env.header "revenue" = some ri) :
    ∀ (chunks : List Chunk) (st : AggState),
      (∀ ch ∈ chunks, ∀ r ∈ cleanChunk env.dp env.header ch,
        (resolveName env.pdict "Product " (getCell r ki) = target ↔ getCell r ki = pid)) →
      mapGet (chunks.foldl (stepClean env) st).product_revenue target =
        mapGet st.product_revenue target +
          (chunks.map (fun ch =>
            (((cleanChunk env.dp env.header ch).filter
              (fun r => getCell r ki = pid)).map
                (fun r => numOf (getCell r ri))).sum)).sum := by
  intro chunks
  induction chunks with
  | nil => intro st _; simp
  | cons ch rest ih =>
    intro st huniq
    rw [List.foldl_cons, ih _ (fun ch2 h2 => huniq ch2 (List.mem_cons_of_mem _ h2)),
      List.map_cons, List.sum_cons]
    simp only [stepClean, stepAgg, hpi, hri]
    rw [mapGet_accumGroups env.pdict "Product " ki ri _ _ target pid
      (huniq ch (List.mem_cons_self ch rest))]
    ring

theorem foldl_stepClean_cr_get (env : Env) (si ri : Nat) (target sid : Value)
    (hsi : colIdx env.header "store_id" = some si)
    (hri : colIdx env.header "revenue" = some ri) :
    ∀ (chunks : List Chunk) (st : AggState),
      (∀ ch ∈ chunks, ∀ r ∈ cleanChunk env.dp env.header ch,
        (resolveName env.cdict "Store " (getCell r si) = target ↔ getCell r si = sid)) →
      mapGet (chunks.foldl (stepClean env) st).city_revenue target =
        mapGet st.city_revenue target +
          (chunks.map (fun ch =>
            (((cleanChunk env.dp env.header ch).filter
              (fun r => getCell r si = sid)).map
                (fun r => numOf (getCell r ri))).sum)).sum := by
  intro chunks
  induction chunks with
  | nil => intro st _; simp
  | cons ch rest ih =>
    intro st huniq
    rw [List.foldl_cons, ih _ (fun ch2 h2 => huniq ch2 (List.mem_cons_of_mem _ h2)),
      List.map_cons, List.sum_cons]
    simp only [stepClean, stepAgg, hsi, hri]
    rw [mapGet_accumGroups env.cdict "Store " si ri _ _ target sid
      (huniq ch (List.mem_cons_self ch rest))]
    ring

theorem sum_map_filter_flatten (f : Row → Int) (p : Row → Bool) :
    ∀ (ls : List Chunk),
      (ls.map (fun ch => ((ch.filter p).map f).sum)).sum =
        ((ls.flatten.filter p).map f).sum := by
  intro ls
  induction ls with
  | nil => simp
  | cons ch rest ih =>
    rw [List.map_cons, List.sum_cons, List.flatten_cons, List.filter_append,
      List.map_append, List.sum_append, ih]

/-! ## Helper lemmas: the date column after cleaning -/

theorem chunkDates_normDates (dp : String → Option Int) (i : Nat) (rows : List Row) :
    chunkDates (some i) (normDates dp (some i) rows) =
      rows.filterMap (fun r => toDatetime dp (getCell r i)) := by
  rw [chunkDates, normDates, List.filterMap_map]
  refine List.filterMap_congr (fun r _ => ?_)
  by_cases hlen : i < r.length
  · have hget : getCell (r.set i (match toDatetime dp (getCell r i) with
        | some t => Value.num t
        | none => Value.na)) i =
        (match toDatetime dp (getCell r i) with
          | some t => Value.num t
          | none => Value.na) := by
      rw [getCell, List.getD_eq_getElem?_getD, List.getElem?_set_self hlen]
      rfl
    show (match getCell (r.set i _) i with
      | Value.num t => some t
      | _ => none) = toDatetime dp (getCell r i)
    rw [hget]
    cases toDatetime dp (getCell r i) <;> rfl
  · have hset : r.set i (match toDatetime dp (getCell r i) with
        | some t => Value.num t
        | none => Value.na) = r :=
      List.set_eq_of_length_le (Nat.le_of_not_lt hlen)
    have hna : getCell r i = Value.na := by
      rw [getCell, List.getD_eq_default _ _ (Nat.le_of_not_lt hlen)]
    show (match getCell (r.set i _) i with
      | Value.num t => some t
      | _ => none) = toDatetime dp (getCell r i)
    rw [hset, hna]
    rfl

/-! ## Concrete fixtures used by witnesses and counterexamples -/

/-- A dataset with a single `revenue` column and two identical rows. -/
def envRev : Env := ⟨fun _ => none, [], [], ["revenue"]⟩

/-- Two identical rows (a within-dataset duplicate). -/
def rowsRev : List Row := [[.num 5], [.num 5]]

/-- Two distinct rows (no duplicates). -/
def rowsND : List Row := [[.num 5], [.num 6]]

/-- A dataset with `product_id` and `revenue` columns; the product lookup
knows id 1 only. -/
def envProd : Env := ⟨fun _ => none, [(.num 1, .str "Alpha")], [], ["product_id", "revenue"]⟩

/-- Three rows; product id 2 is absent from the lookup. -/
def rowsProd : List Row := [[.num 1, .num 10], [.num 2, .num 7], [.num 1, .num 5]]

/-- The pipeline output on `envProd`/`rowsProd` at chunk size 2. -/
def rProd : PipelineOutput :=
  ⟨⟨22, 3, [(.str "Alpha", 15), (.str "Product 2", 7)], [], none, none⟩,
    [[.num 1, .num 10, .str "Alpha"], [.num 2, .num 7, .na], [.num 1, .num 5, .str "Alpha"]]⟩

/-- A dataset with `product_id` and `store_id` columns and empty lookups. -/
def envPS : Env := ⟨fun _ => none, [], [], ["product_id", "store_id"]⟩

/-- One row whose ids are absent from both lookups. -/
def rowsPS : List Row := [[.num 2, .num 3]]

/-- The pipeline output on `envPS`/`rowsPS` at chunk size 1. -/
def rPS : PipelineOutput :=
  ⟨⟨0, 1, [], [], none, none⟩, [[.num 2, .num 3, .na, .na]]⟩

/-- A date parser that knows the single date string `"d1"` (timestamp 100). -/
def dpEx : String → Option Int := fun s => if s = "d1" then some 100 else none

/-- A dataset with a single `date` column. -/
def envDate : Env := ⟨dpEx, [], [], ["date"]⟩

/-- One row with a missing date, one with the parseable date `"d1"`. -/
def rowsDate : List Row := [[.na], [.str "d1"]]

/-! ## Claim theorems -/

/-- C9: for every finalized aggregate result, `average_ticket` equals
`total_revenue / total_transactions` when `total_transactions > 0` (stated
multiplicatively, with the divisor provably nonzero — the division branch is
only reached with a nonzero divisor) and equals 0 when
`total_transactions = 0`. -/
theorem C9_avg_ticket_safe (env : Env) (c : Nat) (rows : List Row) (r : PipelineOutput)
    (h : load_sales_chunked env c rows = .ok r) :
    (r.agg.total_transactions = 0 →
      avg_ticket r.agg.total_revenue r.agg.total_transactions = 0) ∧
    (0 < r.agg.total_transactions →
      ((r.agg.total_transactions : Rat) ≠ 0 ∧
        avg_ticket r.agg.total_revenue r.agg.total_transactions *
          (r.agg.total_transactions : Rat) = (r.agg.total_revenue : Rat))) := by
  constructor
  · intro h0
    rw [avg_ticket, if_neg (by omega)]
  · intro hpos
    have hne : (r.agg.total_transactions : Rat) ≠ 0 := by
      exact_mod_cast Nat.pos_iff_ne_zero.mp hpos
    exact ⟨hne, by rw [avg_ticket, if_pos hpos, div_mul_cancel₀ _ hne]⟩

/-- Witness for C9 at a concrete run (1 transaction, revenue 5). -/
theorem C9_witness :
    avg_ticket (5 : Int) 1 * ((1 : Nat) : Rat) = ((5 : Int) : Rat) :=
  ((C9_avg_ticket_safe envRev 2 rowsRev ⟨⟨5, 1, [], [], none, none⟩, [[.num 5]]⟩ rfl).2
    (by decide)).2

/-- C8: with a positive chunk size, a dataset of zero rows makes the pipeline
fail with the empty-dataset error and return no output, and a dataset with at
least one row never hits that error. -/
theorem C8_empty_dataset (env : Env) (c : Nat) (rows : List Row) (hc : 0 < c) :
    (rows = [] → load_sales_chunked env c rows = .error "No data found in sales.csv") ∧
    (rows ≠ [] → ∃ r, load_sales_chunked env c rows = .ok r) := by
  constructor
  · intro h
    subst h
    rfl
  · intro h
    exact load_ok_of_chunks_ne (chunksOf_ne_nil h)

/-- Witness for C8: both branches at concrete datasets. -/
theorem C8_witness :
    load_sales_chunked envRev 2 [] = .error "No data found in sales.csv" ∧
    ∃ r, load_sales_chunked envRev 2 rowsRev = .ok r :=
  ⟨(C8_empty_dataset envRev 2 [] (by decide)).1 rfl,
    (C8_empty_dataset envRev 2 rowsRev (by decide)).2 (by decide)⟩

/-- C6: `total_transactions` is the total row count across all chunks after
per-chunk duplicate removal and missing-value fill — a formula that never
mentions the revenue column, so the count is independent of its presence. -/
theorem C6_transactions_count_rows (env : Env) (c : Nat) (rows : List Row)
    (r : PipelineOutput) (h : load_sales_chunked env c rows = .ok r) :
    r.agg.total_transactions =
      ((chunksOf c rows).map (fun ch => (fillna (dedupKeepFirst ch)).length)).sum := by
  rw [(load_ok_inv h).1]
  show ((chunksOf c rows).foldl (stepClean env) initAgg).total_transactions = _
  rw [foldl_stepClean_tt]
  show 0 + _ = _
  rw [Nat.zero_add]
  exact congrArg List.sum (List.map_congr_left (fun ch _ => by
    rw [length_cleanChunk, length_fillna_dedup]))

/-- Witness for C6 at a concrete run (3 rows, no duplicates). -/
theorem C6_witness :
    rProd.agg.total_transactions =
      ((chunksOf 2 rowsProd).map (fun ch => (fillna (dedupKeepFirst ch)).length)).sum :=
  C6_transactions_count_rows envProd 2 rowsProd rProd rfl

/-- C5: when the dataset has both a `product_id` and a `revenue` column (in
particular whenever every row carries both values), the values of the final
`product_revenue` map sum exactly to `total_revenue` — exact equality over
`Rat`, hence within any floating-point tolerance. -/
theorem C5_conservation (env : Env) (c : Nat) (rows : List Row) (ki ri : Nat)
    (r : PipelineOutput)
    (hpi : colIdx env.header "product_id" = some ki)
    (hri : colIdx env.header "revenue" = some ri)
    (h : load_sales_chunked env c rows = .ok r)
    (hcells : ∀ row ∈ rows, getCell row ki ≠ Value.na ∧ getCell row ri ≠ Value.na) :
    sumValues r.agg.product_revenue = r.agg.total_revenue := by
  rw [(load_ok_inv h).1]
  show sumValues ((chunksOf c rows).foldl (stepClean env) initAgg).product_revenue =
    ((chunksOf c rows).foldl (stepClean env) initAgg).total_revenue
  rw [foldl_stepClean_pr_sum env ki ri hpi hri, foldl_stepClean_tr]
  show sumValues [] + _ = 0 + _
  rw [hri]
  simp [sumValues]

/-- Witness for C5 at a concrete run (revenue 22 split 15 + 7). -/
theorem C5_witness :
    sumValues rProd.agg.product_revenue = rProd.agg.total_revenue :=
  C5_conservation envProd 2 rowsProd 0 1 rProd rfl rfl rfl (by decide)

theorem length_enrichChunk (env : Env) (rows : Chunk) :
    (enrichChunk env rows).length = rows.length :=
  List.length_map _ _

/-- C4: the returned sample has exactly
`min(rows in the first 3 cleaned chunks, 50000)` rows, it is the capped
concatenation of the first 3 cleaned, enriched chunks (so no later chunk is
ever retained), and it is a contiguous prefix, in read order, of the cleaned
and enriched full dataset. -/
theorem C4_sample_prefix (env : Env) (c : Nat) (rows : List Row) (r : PipelineOutput)
    (h : load_sales_chunked env c rows = .ok r) :
    r.sample.length =
      min ((((chunksOf c rows).take 3).map
        (fun ch => (cleanChunk env.dp env.header ch).length)).sum) 50000 ∧
    r.sample = ((((chunksOf c rows).take 3).map
      (fun ch => enrichChunk env (cleanChunk env.dp env.header ch))).flatten).take 50000 ∧
    r.sample =
      (((chunksOf c rows).map
        (fun ch => enrichChunk env (cleanChunk env.dp env.header ch))).flatten).take
          (min ((((chunksOf c rows).take 3).map
            (fun ch => (cleanChunk env.dp env.header ch).length)).sum) 50000) := by
  have hs := (load_ok_inv h).2
  set f : Chunk → Chunk := fun ch => enrichChunk env (cleanChunk env.dp env.header ch) with hf
  set A : List Row := (((chunksOf c rows).take 3).map f).flatten with hA
  have hlenA : A.length =
      (((chunksOf c rows).take 3).map
        (fun ch => (cleanChunk env.dp env.header ch).length)).sum := by
    rw [hA, List.length_flatten, List.map_map]
    exact congrArg List.sum (List.map_congr_left (fun ch _ => by
      show (f ch).length = _
      rw [hf]
      exact length_enrichChunk env _))
  refine ⟨?_, hs, ?_⟩
  · rw [hs, List.length_take, ← hlenA, Nat.min_comm]
  · rw [hs]
    have hsplit : ((chunksOf c rows).map f).flatten = A ++ (((chunksOf c rows).drop 3).map f).flatten := by
      rw [hA, ← List.flatten_append, ← List.map_append, List.take_append_drop]
    rw [hsplit, ← hlenA,
      List.take_append_of_le_length (Nat.min_le_left A.length 50000),
      Nat.min_comm, ← List.take_take, List.take_length]

/-- Witness for C4 at a concrete run (3 rows in 2 chunks, cap not reached). -/
theorem C4_witness :
    rProd.sample.length =
      min ((((chunksOf 2 rowsProd).take 3).map
        (fun ch => (cleanChunk envProd.dp envProd.header ch).length)).sum) 50000 ∧
    rProd.sample = ((((chunksOf 2 rowsProd).take 3).map
      (fun ch => enrichChunk envProd (cleanChunk envProd.dp envProd.header ch))).flatten).take 50000 ∧
    rProd.sample =
      (((chunksOf 2 rowsProd).map
        (fun ch => enrichChunk envProd (cleanChunk envProd.dp envProd.header ch))).flatten).take
          (min ((((chunksOf 2 rowsProd).take 3).map
            (fun ch => (cleanChunk envProd.dp envProd.header ch).length)).sum) 50000) :=
  C4_sample_prefix envProd 2 rowsProd rProd rfl

/-- C1 counterexample: on the two-row dataset `[[5], [5]]` (an exact
duplicate pair), chunk size 1 keeps both rows (each chunk sees one copy)
while chunk size 2 deduplicates them inside the single chunk, so
`total_revenue` and `total_transactions` differ between the two chunk
sizes — chunk-size independence fails as stated. -/
theorem C1_counterexample :
    (load_sales_chunked envRev 1 rowsRev).map
      (fun r => (r.agg.total_revenue, r.agg.total_transactions)) = .ok (10, 2) ∧
    (load_sales_chunked envRev 2 rowsRev).map
      (fun r => (r.agg.total_revenue, r.agg.total_transactions)) = .ok (5, 1) ∧
    ((10 : Int), (2 : Nat)) ≠ ((5 : Int), (1 : Nat)) :=
  ⟨rfl, rfl, by decide⟩

theorem load_totals_of_nodup (env : Env) (c : Nat) (rows : List Row)
    (r : PipelineOutput) (hc : 0 < c) (hnd : rows.Nodup)
    (h : load_sales_chunked env c rows = .ok r) :
    r.agg.total_revenue = singlePassRevenue env rows ∧
    r.agg.total_transactions = singlePassCount env rows := by
  have hagg := (load_ok_inv h).1
  have hchnd : ∀ ch ∈ chunksOf c rows, ch.Nodup :=
    fun ch hch => (mem_chunksOf_sublist hch).nodup hnd
  constructor
  · rw [hagg]
    show ((chunksOf c rows).foldl (stepClean env) initAgg).total_revenue = _
    rw [foldl_stepClean_tr]
    show 0 + _ = _
    rw [Int.zero_add,
      List.map_congr_left (fun ch hch => by
        rw [cleanChunk_eq_map_of_nodup env.dp env.header (hchnd ch hch)]),
      colSum_flatten_map, chunksOf_flatten hc, singlePassRevenue,
      cleanChunk_eq_map_of_nodup env.dp env.header hnd]
  · rw [hagg]
    show ((chunksOf c rows).foldl (stepClean env) initAgg).total_transactions = _
    rw [foldl_stepClean_tt]
    show 0 + _ = _
    rw [Nat.zero_add]
    have hmap : (chunksOf c rows).map
        (fun ch => (cleanChunk env.dp env.header ch).length) =
        (chunksOf c rows).map List.length :=
      List.map_congr_left (fun ch hch => by
        rw [cleanChunk_eq_map_of_nodup env.dp env.header (hchnd ch hch), List.length_map])
    rw [hmap, ← List.length_flatten, chunksOf_flatten hc, singlePassCount,
      cleanChunk_eq_map_of_nodup env.dp env.header hnd, List.length_map]

/-- C1 amended: chunk-size independence of `total_revenue` and
`total_transactions` holds for every dataset with no exact-duplicate rows —
and both then equal the single-pass scan of the full dataset under the same
cleaning rules.  (The counterexample forces this restriction: duplicate
removal is per-chunk, so datasets containing duplicate rows are cleaned
differently under different chunkings.) -/
theorem C1_chunk_size_independent_of_nodup (env : Env) (c1 c2 : Nat) (rows : List Row)
    (r1 r2 : PipelineOutput) (hc1 : 0 < c1) (hc2 : 0 < c2) (hnd : rows.Nodup)
    (h1 : load_sales_chunked env c1 rows = .ok r1)
    (h2 : load_sales_chunked env c2 rows = .ok r2) :
    r1.agg.total_revenue = r2.agg.total_revenue ∧
    r1.agg.total_transactions = r2.agg.total_transactions ∧
    r1.agg.total_revenue = singlePassRevenue env rows ∧
    r1.agg.total_transactions = singlePassCount env rows := by
  obtain ⟨ha1, hb1⟩ := load_totals_of_nodup env c1 rows r1 hc1 hnd h1
  obtain ⟨ha2, hb2⟩ := load_totals_of_nodup env c2 rows r2 hc2 hnd h2
  exact ⟨ha1.trans ha2.symm, hb1.trans hb2.symm, ha1, hb1⟩

/-- Witness for the amended C1 at a duplicate-free two-row dataset and chunk
sizes 1 and 2. -/
theorem C1_witness :
    ∃ r1 r2 : PipelineOutput,
      load_sales_chunked envRev 1 rowsND = .ok r1 ∧
      load_sales_chunked envRev 2 rowsND = .ok r2 ∧
      r1.agg.total_revenue = r2.agg.total_revenue ∧
      r1.agg.total_transactions = r2.agg.total_transactions ∧
      r1.agg.total_revenue = singlePassRevenue envRev rowsND ∧
      r1.agg.total_transactions = singlePassCount envRev rowsND :=
  ⟨⟨⟨11, 2, [], [], none, none⟩, [[.num 5], [.num 6]]⟩,
    ⟨⟨11, 2, [], [], none, none⟩, [[.num 5], [.num 6]]⟩,
    rfl, rfl,
    C1_chunk_size_independent_of_nodup envRev 1 2 rowsND
      ⟨⟨11, 2, [], [], none, none⟩, [[.num 5], [.num 6]]⟩
      ⟨⟨11, 2, [], [], none, none⟩, [[.num 5], [.num 6]]⟩
      (by decide) (by decide) (by decide) rfl rfl⟩

/-- C3 counterexample: in a dataset whose only originally-valid parseable
date is the string `"d1"` (timestamp 100), with one further row whose date is
missing, the pipeline reports `min_date = 0`: the missing date was filled
with the `0` sentinel *before* date parsing, so it contributed the epoch
timestamp — contradicting the claim that a row whose date was missing never
contributes a date value (the claim would force `min_date = 100`). -/
theorem C3_counterexample :
    rowsDate.filterMap (fun row => toDatetime envDate.dp (getCell row 0)) = [(100 : Int)] ∧
    (load_sales_chunked envDate 10 rowsDate).map (fun r => r.agg.min_date) =
      .ok (some 0) ∧
    some (0 : Int) ≠ some (100 : Int) :=
  ⟨rfl, rfl, by decide⟩

/-- C3 amended: unparseable date *strings* are excluded from date-extreme
tracking and from the running date list (`toDatetime` sends them to `none`
and the `filterMap` drops them), but a date *missing* in the source is first
filled with the `0` sentinel and therefore contributes the epoch timestamp 0:
`min_date`/`max_date` are the extremes of the parse results of the
duplicate-removed, filled date column, not of the originally-valid dates
only. -/
theorem C3_dates_after_fill (env : Env) (c : Nat) (rows : List Row)
    (r : PipelineOutput) (di : Nat)
    (h : load_sales_chunked env c rows = .ok r)
    (hdi : colIdx env.header "date" = some di) :
    r.agg.min_date = pyMin (((chunksOf c rows).map (fun ch =>
      (fillna (dedupKeepFirst ch)).filterMap
        (fun row => toDatetime env.dp (getCell row di)))).flatten) ∧
    r.agg.max_date = pyMax (((chunksOf c rows).map (fun ch =>
      (fillna (dedupKeepFirst ch)).filterMap
        (fun row => toDatetime env.dp (getCell row di)))).flatten) := by
  have hagg := (load_ok_inv h).1
  have hdates : ((chunksOf c rows).foldl (stepClean env) initAgg).dates =
      ((chunksOf c rows).map (fun ch =>
        (fillna (dedupKeepFirst ch)).filterMap
          (fun row => toDatetime env.dp (getCell row di)))).flatten := by
    rw [foldl_stepClean_dates]
    show [] ++ _ = _
    rw [List.nil_append]
    exact congrArg List.flatten (List.map_congr_left (fun ch _ => by
      rw [cleanChunk, hdi, chunkDates_normDates]))
  constructor
  · rw [hagg]
    show pyMin _ = _
    rw [hdates]
  · rw [hagg]
    show pyMax _ = _
    rw [hdates]

/-- Witness for the amended C3 at the concrete dataset with one missing and
one parseable date. -/
theorem C3_witness :
    (⟨⟨0, 2, [], [], some 0, some 100⟩,
        [[.num 0], [.num 100]]⟩ : PipelineOutput).agg.min_date =
      pyMin (((chunksOf 10 rowsDate).map (fun ch =>
        (fillna (dedupKeepFirst ch)).filterMap
          (fun row => toDatetime envDate.dp (getCell row 0)))).flatten) ∧
    (⟨⟨0, 2, [], [], some 0, some 100⟩,
        [[.num 0], [.num 100]]⟩ : PipelineOutput).agg.max_date =
      pyMax (((chunksOf 10 rowsDate).map (fun ch =>
        (fillna (dedupKeepFirst ch)).filterMap
          (fun row => toDatetime envDate.dp (getCell row 0)))).flatten) :=
  C3_dates_after_fill envDate 10 rowsDate
    ⟨⟨0, 2, [], [], some 0, some 100⟩, [[.num 0], [.num 100]]⟩ 0 rfl rfl

/-- A dataset with `product_id`, `store_id` and `revenue` columns; the
lookups know product 1 (`"Alpha"`) and store 7 (`"Paris"`) only. -/
def envFull : Env :=
  ⟨fun _ => none, [(.num 1, .str "Alpha")], [(.num 7, .str "Paris")],
    ["product_id", "store_id", "revenue"]⟩

/-- Two rows; product id 2 and store id 8 are absent from the lookups. -/
def rowsFull : List Row := [[.num 1, .num 7, .num 10], [.num 2, .num 8, .num 5]]

/-- The pipeline output on `envFull`/`rowsFull` at chunk size 2. -/
def rFull : PipelineOutput :=
  ⟨⟨15, 2, [(.str "Alpha", 10), (.str "Product 2", 5)],
      [(.str "Paris", 10), (.str "Store 8", 5)], none, none⟩,
    [[.num 1, .num 7, .num 10, .str "Alpha", .str "Paris"],
      [.num 2, .num 8, .num 5, .na, .na]]⟩

/-- C7: a product id absent from the product lookup resolves to the
synthesized fallback label `"Product {id}"`, and the `product_revenue` entry
under that label is exactly the summed cleaned revenue of the rows carrying
that id (symmetrically `"Store {id}"` in `city_revenue` for a store id absent
from the city lookup).  The hypotheses `huniqP`/`huniqS` say no other id
occurring in the cleaned data resolves to the same label (distinct ids that
are both missing get distinct labels, but a lookup entry could in principle
collide with a fallback label, and a string id can collide with a numeric
one). -/
theorem C7_fallback_revenue (env : Env) (c : Nat) (rows : List Row)
    (r : PipelineOutput) (ki si ri : Nat) (pid sid : Value)
    (h : load_sales_chunked env c rows = .ok r)
    (hpi : colIdx env.header "product_id" = some ki)
    (hsi : colIdx env.header "store_id" = some si)
    (hri : colIdx env.header "revenue" = some ri)
    (habsP : dictFind env.pdict pid = none)
    (habsS : dictFind env.cdict sid = none)
    (huniqP : ∀ ch ∈ chunksOf c rows, ∀ row ∈ cleanChunk env.dp env.header ch,
      getCell row ki ≠ pid →
        resolveName env.pdict "Product " (getCell row ki) ≠
          .str ("Product " ++ showValue pid))
    (huniqS : ∀ ch ∈ chunksOf c rows, ∀ row ∈ cleanChunk env.dp env.header ch,
      getCell row si ≠ sid →
        resolveName env.cdict "Store " (getCell row si) ≠
          .str ("Store " ++ showValue sid)) :
    resolveName env.pdict "Product " pid = .str ("Product " ++ showValue pid) ∧
    mapGet r.agg.product_revenue (.str ("Product " ++ showValue pid)) =
      (((((chunksOf c rows).map (cleanChunk env.dp env.header)).flatten).filter
        (fun row => getCell row ki = pid)).map
          (fun row => numOf (getCell row ri))).sum ∧
    resolveName env.cdict "Store " sid = .str ("Store " ++ showValue sid) ∧
    mapGet r.agg.city_revenue (.str ("Store " ++ showValue sid)) =
      (((((chunksOf c rows).map (cleanChunk env.dp env.header)).flatten).filter
        (fun row => getCell row si = sid)).map
          (fun row => numOf (getCell row ri))).sum := by
  have hresP : resolveName env.pdict "Product " pid =
      .str ("Product " ++ showValue pid) := by
    rw [resolveName, habsP]
  have hresS : resolveName env.cdict "Store " sid =
      .str ("Store " ++ showValue sid) := by
    rw [resolveName, habsS]
  have hagg := (load_ok_inv h).1
  refine ⟨hresP, ?_, hresS, ?_⟩
  · have hiff : ∀ ch ∈ chunksOf c rows, ∀ row ∈ cleanChunk env.dp env.header ch,
        (resolveName env.pdict "Product " (getCell row ki) =
            .str ("Product " ++ showValue pid) ↔ getCell row ki = pid) := by
      intro ch hch row hrow
      constructor
      · intro he
        by_contra hne
        exact huniqP ch hch row hrow hne he
      · intro he
        rw [he]
        exact hresP
    rw [hagg]
    show mapGet ((chunksOf c rows).foldl (stepClean env) initAgg).product_revenue _ = _
    rw [foldl_stepClean_pr_get env ki ri _ pid hpi hri _ initAgg hiff]
    show mapGet [] _ + _ = _
    rw [mapGet]
    rw [show (chunksOf c rows).map (fun ch =>
        (((cleanChunk env.dp env.header ch).filter
          (fun row => getCell row ki = pid)).map
            (fun row => numOf (getCell row ri))).sum) =
      ((chunksOf c rows).map (cleanChunk env.dp env.header)).map (fun ch =>
        ((ch.filter (fun row => getCell row ki = pid)).map
          (fun row => numOf (getCell row ri))).sum) from by
        rw [List.map_map]
        rfl]
    rw [sum_map_filter_flatten]
    ring
  · have hiff : ∀ ch ∈ chunksOf c rows, ∀ row ∈ cleanChunk env.dp env.header ch,
        (resolveName env.cdict "Store " (getCell row si) =
            .str ("Store " ++ showValue sid) ↔ getCell row si = sid) := by
      intro ch hch row hrow
      constructor
      · intro he
        by_contra hne
        exact huniqS ch hch row hrow hne he
      · intro he
        rw [he]
        exact hresS
    rw [hagg]
    show mapGet ((chunksOf c rows).foldl (stepClean env) initAgg).city_revenue _ = _
    rw [foldl_stepClean_cr_get env si ri _ sid hsi hri _ initAgg hiff]
    show mapGet [] _ + _ = _
    rw [mapGet]
    rw [show (chunksOf c rows).map (fun ch =>
        (((cleanChunk env.dp env.header ch).filter
          (fun row => getCell row si = sid)).map
            (fun row => numOf (getCell row ri))).sum) =
      ((chunksOf c rows).map (cleanChunk env.dp env.header)).map (fun ch =>
        ((ch.filter (fun row => getCell row si = sid)).map
          (fun row => numOf (getCell row ri))).sum) from by
        rw [List.map_map]
        rfl]
    rw [sum_map_filter_flatten]
    ring

/-- Witness for C7: product id 2 and store id 8 are unmapped; their revenue
(5) lands under `"Product 2"` and `"Store 8"`. -/
theorem C7_witness :
    resolveName envFull.pdict "Product " (.num 2) =
      .str ("Product " ++ showValue (.num 2)) ∧
    mapGet rFull.agg.product_revenue (.str ("Product " ++ showValue (.num 2))) =
      (((((chunksOf 2 rowsFull).map (cleanChunk envFull.dp envFull.header)).flatten).filter
        (fun row => getCell row 0 = .num 2)).map
          (fun row => numOf (getCell row 2))).sum ∧
    resolveName envFull.cdict "Store " (.num 8) =
      .str ("Store " ++ showValue (.num 8)) ∧
    mapGet rFull.agg.city_revenue (.str ("Store " ++ showValue (.num 8))) =
      (((((chunksOf 2 rowsFull).map (cleanChunk envFull.dp envFull.header)).flatten).filter
        (fun row => getCell row 1 = .num 8)).map
          (fun row => numOf (getCell row 2))).sum :=
  C7_fallback_revenue envFull 2 rowsFull rFull 0 1 2 (.num 2) (.num 8)
    rfl rfl rfl rfl rfl rfl (by decide) (by decide)

theorem getCell_append_len (l1 l2 : Row) (v : Value) :
    getCell (l1 ++ v :: l2) l1.length = v := by
  rw [getCell, List.getD_append_right _ _ _ _ (Nat.le_refl _), Nat.sub_self]
  rfl

/-- C10: every row of the retained sample is an enrichment of a cleaned row,
and when the row's product id (resp. store id) is absent from the lookup, the
appended `product_name` (resp. `city`) cell is NaN — `Series.map(dict)` has
no fallback — and in particular is not the synthesized label
`"Product {id}"` / `"Store {id}"` that the revenue maps use. -/
theorem C10_sample_null_enrichment (env : Env) (c : Nat) (rows : List Row)
    (r : PipelineOutput) (ki si : Nat)
    (h : load_sales_chunked env c rows = .ok r)
    (hpi : colIdx env.header "product_id" = some ki)
    (hsi : colIdx env.header "store_id" = some si) :
    ∀ row2 ∈ r.sample, ∃ row : Row,
      row2 = enrichRow env.pdict env.cdict (some ki) (some si) row ∧
      (dictFind env.pdict (getCell row ki) = none →
        getCell row2 row.length = Value.na ∧
        getCell row2 row.length ≠ .str ("Product " ++ showValue (getCell row ki))) ∧
      (dictFind env.cdict (getCell row si) = none →
        getCell row2 (row.length + 1) = Value.na ∧
        getCell row2 (row.length + 1) ≠ .str ("Store " ++ showValue (getCell row si))) := by
  intro row2 hrow2
  rw [(load_ok_inv h).2] at hrow2
  obtain ⟨l, hl, hrowl⟩ := List.mem_flatten.mp (List.mem_of_mem_take hrow2)
  obtain ⟨ch, hch, rfl⟩ := List.mem_map.mp hl
  simp only [enrichChunk, hpi, hsi] at hrowl
  obtain ⟨row, hrowch, rfl⟩ := List.mem_map.mp hrowl
  have hshape : enrichRow env.pdict env.cdict (some ki) (some si) row =
      row ++ (mapCell env.pdict (getCell row ki) :: [mapCell env.cdict (getCell row si)]) := by
    rw [enrichRow, List.append_assoc]
    rfl
  have hcell1 : getCell (enrichRow env.pdict env.cdict (some ki) (some si) row)
      row.length = mapCell env.pdict (getCell row ki) := by
    rw [hshape, getCell_append_len]
  have hcell2 : getCell (enrichRow env.pdict env.cdict (some ki) (some si) row)
      (row.length + 1) = mapCell env.cdict (getCell row si) := by
    have hlen : (row ++ [mapCell env.pdict (getCell row ki)]).length = row.length + 1 := by
      rw [List.length_append]
      rfl
    have h2 := getCell_append_len (row ++ [mapCell env.pdict (getCell row ki)]) []
      (mapCell env.cdict (getCell row si))
    rw [hlen] at h2
    exact h2
  refine ⟨row, rfl, ?_, ?_⟩
  · intro hnone
    rw [hcell1, mapCell, hnone]
    exact ⟨rfl, by simp⟩
  · intro hnone
    rw [hcell2, mapCell, hnone]
    exact ⟨rfl, by simp⟩

/-- Witness for C10: the second sample row of the `envFull` run carries NaN
in both appended columns (ids 2 and 8 are unmapped). -/
theorem C10_witness :
    ∃ row : Row,
      ([.num 2, .num 8, .num 5, .na, .na] : Row) =
        enrichRow envFull.pdict envFull.cdict (some 0) (some 1) row ∧
      (dictFind envFull.pdict (getCell row 0) = none →
        getCell ([.num 2, .num 8, .num 5, .na, .na] : Row) row.length = Value.na ∧
        getCell ([.num 2, .num 8, .num 5, .na, .na] : Row) row.length ≠
          .str ("Product " ++ showValue (getCell row 0))) ∧
      (dictFind envFull.cdict (getCell row 1) = none →
        getCell ([.num 2, .num 8, .num 5, .na, .na] : Row) (row.length + 1) = Value.na ∧
        getCell ([.num 2, .num 8, .num 5, .na, .na] : Row) (row.length + 1) ≠
          .str ("Store " ++ showValue (getCell row 1))) :=
  C10_sample_null_enrichment envFull 2 rowsFull rFull 0 1 rfl rfl rfl
    [.num 2, .num 8, .num 5, .na, .na] (by decide)

/-- The product lookup table of the C2 scenario: an id column and one other
column, named `desc`, usable as display name; no `product_name` column. -/
def productsBugHeader : List String := ["product_id", "desc"]

/-- Its rows: ids 1, 2, 3 with display names `"A"`, `"B"`, `"C"`. -/
def productsBugRows : List Row := [[.num 1, .str "A"], [.num 2, .str "B"], [.num 3, .str "C"]]

/-- C2: when the name-like column is absent, `df.get(nameCol, df.columns[1])`
returns the second column's *name* (the string `"desc"`), not its values, and
`dict(zip(ids, "desc"))` pairs the ids with that string's characters: id 1
maps to `"d"`, id 2 to `"e"`, id 3 to `"s"` — not to the second column's
values `"A"`, `"B"`, `"C"` as the claim (and the spec's intent of a
positional fallback) requires. -/
theorem C2_code_bug_eval :
    buildDict productsBugHeader productsBugRows "product_id" "product_name" =
      some [(.num 1, .str "d"), (.num 2, .str "e"), (.num 3, .str "s")] ∧
    some [((.num 1 : Value), (.str "d" : Value)), (.num 2, .str "e"), (.num 3, .str "s")] ≠
      some [((.num 1 : Value), (.str "A" : Value)), (.num 2, .str "B"), (.num 3, .str "C")] :=
  ⟨rfl, by decide⟩

end EDA
